import Mathlib

/-!
# newlib system-call shims for Redox (`libc/sys/redox/syscalls.c`)

A shallow embedding of the eighteen functions of `syscalls.c` and the
properties of them that are checked against the written specification.

* C `int` values, register words and return values are `Int`.
* Data addresses (`char *`, `caddr_t`) are `Nat`; `heap_end += incr` is
  evaluated as the machine evaluates it, modulo `2 ^ ptrBits`.
* The two file-scope objects the functions touch, `errno` and the
  function-static `heap_end` of `sbrk`, are fields of `Proc`; every function
  takes the process state and gives back its result with the new state.
* Two ghost fields record what the code did: `trace`, the requests handed to
  the kernel through `int $0x80`, and `seeds`, how many times the assignment
  `heap_end = &_end` was executed.
-/

namespace Redox

/-! ## What the file takes from outside -/

/-- The target the file is built for: the width in bits of a data pointer and
the address the linker gives the symbol `_end` (`extern char _end`). -/
structure Target where
  ptrBits : Nat
  _end : Nat
  deriving DecidableEq, Repr

/-- The constants of `<sys/errno.h>` and `<sys/stat.h>` the file names. The
headers come with newlib and are not among the sources, so their values are
left open. -/
structure Headers where
  ENOMEM : Int
  EAGAIN : Int
  EINVAL : Int
  EMLINK : Int
  ENOENT : Int
  ECHILD : Int
  S_IFCHR : Int
  deriving DecidableEq, Repr

/-- A kernel request as `int $0x80` receives it: the operation code loaded
into `eax` and the argument registers the asm statement loads, in the order
`ebx`, `ecx`, `edx`. -/
structure Request where
  op : Int
  args : List Int
  deriving DecidableEq, Repr

/-- The kernel as the shim sees it: for a request either the word it leaves in
`eax` when it resumes the caller, or `none` when the caller is never
resumed. -/
abbrev Kernel := Request → Option Int

/-! ## Process state -/

/-- The state of the process the functions of `syscalls.c` read and write. -/
structure Proc where
  /-- Source: `extern int errno;` -/
  errno : Int
  /-- Source: `static char *heap_end;` of `sbrk`, zero when the program starts. -/
  heap_end : Nat
  /-- Ghost: the requests handed to the kernel so far, oldest first. -/
  trace : List Request
  /-- Ghost: how many times `heap_end = &_end;` was executed. -/
  seeds : Nat
  deriving DecidableEq, Repr

/-- The part of `struct stat` the file writes, `st_mode`, and the remaining
fields taken together. -/
structure struct_stat where
  st_mode : Int
  st_rest : List Int
  deriving DecidableEq, Repr

/-- How a call that reaches the kernel ends: control is back in the caller
with a value, or it never comes back. -/
inductive Ctl (α : Type) where
  | returned (v : α) (p : Proc)
  | halted (p : Proc)
  deriving DecidableEq, Repr

/-- An address computed by pointer arithmetic, reduced to the pointer width. -/
def wrap (w : Nat) (z : Int) : Nat := (z % 2 ^ w).toNat

/-- The instruction `int $0x80`: the request goes to the kernel; the caller
goes on with the word the kernel left in `eax`, if it is resumed at all. -/
def int80 (K : Kernel) (r : Request) (p : Proc) : Ctl Int :=
  let p1 := { p with trace := p.trace ++ [r] }
  match K r with
  | some v => Ctl.returned v p1
  | none => Ctl.halted p1

/-- The process state a call leaves, whether or not control came back. -/
def Ctl.proc {α : Type} : Ctl α → Proc
  | Ctl.returned _ p => p
  | Ctl.halted p => p

/-! ## The functions of `syscalls.c`, in the order of the file -/

/-- Source: `void _exit(int code)`: `int $0x80` with `eax = 1`, `ebx = code`; the
function body ends after the instruction. -/
def _exit (K : Kernel) (code : Int) (p : Proc) : Ctl Unit :=
  match int80 K ⟨1, [code]⟩ p with
  | Ctl.returned _ p1 => Ctl.returned () p1
  | Ctl.halted p1 => Ctl.halted p1

/-- Source: `int close(int file)` -/
def close (_file : Int) (p : Proc) : Int × Proc := (-1, p)

/-- Source: `int execve(char *name, char **argv, char **env)` -/
def execve (H : Headers) (_name _argv _env : Nat) (p : Proc) : Int × Proc :=
  (-1, { p with errno := H.ENOMEM })

/-- Source: `int fork(void)` -/
def fork (H : Headers) (p : Proc) : Int × Proc :=
  (-1, { p with errno := H.EAGAIN })

/-- Source: `int fstat(int file, struct stat *st)`; `st` is the object pointed to. -/
def fstat (H : Headers) (_file : Int) (st : struct_stat) (p : Proc) : Int × struct_stat × Proc :=
  (0, { st with st_mode := H.S_IFCHR }, p)

/-- Source: `int getpid()` -/
def getpid (p : Proc) : Int × Proc := (1, p)

/-- Source: `int isatty(int file)` -/
def isatty (_file : Int) (p : Proc) : Int × Proc := (1, p)

/-- Source: `int kill(int pid, int sig)` -/
def kill (H : Headers) (_pid _sig : Int) (p : Proc) : Int × Proc :=
  (-1, { p with errno := H.EINVAL })

/-- Source: `int link(char *old, char *new)` -/
def link (H : Headers) (_old _new : Nat) (p : Proc) : Int × Proc :=
  (-1, { p with errno := H.EMLINK })

/-- Source: `int lseek(int file, int ptr, int dir)` -/
def lseek (_file _ptr _dir : Int) (p : Proc) : Int × Proc := (0, p)

/-- Source: `int open(const char *file, int flags, ...)`; `_rest` are the variadic
arguments. -/
def «open» (_file : Nat) (_flags : Int) (_rest : List Int) (p : Proc) : Int × Proc :=
  (-1, p)

/-- Source: `int read(int file, char *ptr, int len)` -/
def read (_file : Int) (_ptr : Nat) (_len : Int) (p : Proc) : Int × Proc := (0, p)

/-- Source: `caddr_t sbrk(int incr)`: seed `heap_end` from `&_end` when it is zero,
remember it, advance it by `incr`, return the remembered value. -/
def sbrk (T : Target) (incr : Int) (p : Proc) : Nat × Proc :=
  let p1 := if p.heap_end = 0 then { p with heap_end := T._end, seeds := p.seeds + 1 } else p
  let prev_heap_end := p1.heap_end
  let p2 := { p1 with heap_end := wrap T.ptrBits (p1.heap_end + incr) }
  (prev_heap_end, p2)

/-- Source: `int stat(const char *path, struct stat *sbuf)`; `sbuf` is the object
pointed to. -/
def stat (H : Headers) (_path : Nat) (sbuf : struct_stat) (p : Proc) : Int × struct_stat × Proc :=
  (0, { sbuf with st_mode := H.S_IFCHR }, p)

/-- Source: `clock_t times(struct tms *buf)`; the value is that of the expression
returned, `-1`. -/
def times (_buf : Nat) (p : Proc) : Int × Proc := (-1, p)

/-- Source: `int unlink(char *name)` -/
def unlink (H : Headers) (_name : Nat) (p : Proc) : Int × Proc :=
  (-1, { p with errno := H.ENOENT })

/-- Source: `int wait(int *status)` -/
def wait (H : Headers) (_status : Nat) (p : Proc) : Int × Proc :=
  (-1, { p with errno := H.ECHILD })

/-- Source: `int write(int file, char *ptr, int len)`: `int $0x80` with `eax = 4`,
`ebx = file`, `ecx = ptr`, `edx = len`; the result is the word in `eax`. -/
def write (K : Kernel) (file : Int) (ptr : Nat) (len : Int) (p : Proc) : Ctl Int :=
  int80 K ⟨4, [file, (ptr : Int), len]⟩ p

/-! ## Call sequences -/

/-- Successive `sbrk` calls, one per increment: the value each call returns
paired with the state it leaves. -/
def sbrk_calls (T : Target) : List Int → Proc → List (Nat × Proc)
  | [], _ => []
  | i :: is, p => sbrk T i p :: sbrk_calls T is (sbrk T i p).2

/-- The state after successive `sbrk` calls, one per increment. -/
def sbrk_run (T : Target) : List Int → Proc → Proc
  | [], p => p
  | i :: is, p => sbrk_run T is (sbrk T i p).2

/-- The state of a process that has run none of the functions yet. -/
def Proc.start (e : Int) : Proc := { errno := e, heap_end := 0, trace := [], seeds := 0 }

/-- The value `heap_end` holds when `prev_heap_end = heap_end;` reads it:
`&_end` when the variable was zero on entry, the variable otherwise. -/
def cursor (T : Target) (p : Proc) : Nat := if p.heap_end = 0 then T._end else p.heap_end

/-- The addresses the specification lists for successive calls: the end of
data, then the end of data plus the increments applied so far. -/
def spec_returns (T : Target) (incrs : List Int) : List Nat :=
  (List.range incrs.length).map fun k => wrap T.ptrBits (T._end + (incrs.take k).sum)

/-! ## Address arithmetic -/

theorem wrap_lt (w : Nat) (z : Int) : wrap w z < 2 ^ w := by
  have hpos : (0 : Int) < 2 ^ w := by positivity
  have h1 : z % 2 ^ w < 2 ^ w := Int.emod_lt_of_pos z hpos
  have h0 : 0 ≤ z % 2 ^ w := Int.emod_nonneg z (ne_of_gt hpos)
  unfold wrap
  have : ((z % 2 ^ w).toNat : Int) < ((2 ^ w : Nat) : Int) := by
    rw [Int.toNat_of_nonneg h0]; push_cast; exact h1
  exact_mod_cast this

theorem wrap_cast (w : Nat) (z : Int) : ((wrap w z : Nat) : Int) = z % 2 ^ w := by
  have hpos : (0 : Int) < 2 ^ w := by positivity
  unfold wrap
  exact Int.toNat_of_nonneg (Int.emod_nonneg z (ne_of_gt hpos))

theorem wrap_add (w : Nat) (a b : Int) : wrap w ((wrap w a : Nat) + b) = wrap w (a + b) := by
  rw [wrap_cast]
  unfold wrap
  rw [Int.emod_add_emod]

theorem wrap_of_lt (w n : Nat) (h : n < 2 ^ w) : wrap w (n : Int) = n := by
  unfold wrap
  have h1 : (n : Int) < 2 ^ w := by exact_mod_cast h
  rw [Int.emod_eq_of_lt (Int.ofNat_nonneg n) h1]
  exact Int.toNat_ofNat n

/-! ## One `sbrk` call -/

theorem sbrk_fst (T : Target) (incr : Int) (p : Proc) : (sbrk T incr p).1 = cursor T p := by
  unfold sbrk cursor
  by_cases h : p.heap_end = 0 <;> simp [h]

theorem sbrk_heap_end (T : Target) (incr : Int) (p : Proc) :
    (sbrk T incr p).2.heap_end = wrap T.ptrBits (cursor T p + incr) := by
  unfold sbrk cursor
  by_cases h : p.heap_end = 0 <;> simp [h]

theorem sbrk_seeds (T : Target) (incr : Int) (p : Proc) :
    (sbrk T incr p).2.seeds = p.seeds + if p.heap_end = 0 then 1 else 0 := by
  unfold sbrk
  by_cases h : p.heap_end = 0 <;> simp [h]

theorem cursor_of_ne (T : Target) (p : Proc) (h : p.heap_end ≠ 0) : cursor T p = p.heap_end := by
  unfold cursor
  rw [if_neg h]

theorem cursor_of_eq (T : Target) (p : Proc) (h : p.heap_end = 0) : cursor T p = T._end := by
  unfold cursor
  rw [if_pos h]

theorem cursor_lt (T : Target) (p : Proc) (hb : T._end < 2 ^ T.ptrBits)
    (hp : p.heap_end < 2 ^ T.ptrBits) : cursor T p < 2 ^ T.ptrBits := by
  unfold cursor
  split <;> assumption

/-- After a call the cursor read by the next call is the variable itself,
when the variable is non-zero or `&_end` is zero. -/
theorem cursor_after (T : Target) (incr : Int) (p : Proc)
    (h : T._end = 0 ∨ wrap T.ptrBits (cursor T p + incr) ≠ 0) :
    cursor T (sbrk T incr p).2 = wrap T.ptrBits (cursor T p + incr) := by
  have hh := sbrk_heap_end T incr p
  show (if (sbrk T incr p).2.heap_end = 0 then T._end else (sbrk T incr p).2.heap_end) = _
  rw [hh]
  split_ifs with hz
  · rcases h with h | h
    · rw [h, hz]
    · exact absurd hz h
  · rfl

/-! ## Sequences of `sbrk` calls -/

/-- The hypothesis on a sequence, moved past its first call. -/
theorem nonzero_tail (T : Target) (c : Nat) (i : Int) (is : List Int)
    (h : ∀ k, 0 < k → k < (i :: is).length →
      wrap T.ptrBits (c + ((i :: is).take k).sum) ≠ 0) :
    ∀ k, 0 < k → k < is.length →
      wrap T.ptrBits ((wrap T.ptrBits (c + i) : Nat) + (is.take k).sum) ≠ 0 := by
  intro k _ hk
  rw [wrap_add]
  have h2 := h (k + 1) (Nat.succ_pos k) (by simp only [List.length_cons]; omega)
  simpa [List.take, add_assoc] using h2

/-- As long as no call but the last leaves the variable at zero (or `&_end`
is itself zero), the calls return the running sums from the cursor. -/
theorem sbrk_calls_fst (T : Target) : ∀ (incrs : List Int) (p : Proc),
    cursor T p < 2 ^ T.ptrBits →
    (T._end = 0 ∨ ∀ k, 0 < k → k < incrs.length →
      wrap T.ptrBits (cursor T p + (incrs.take k).sum) ≠ 0) →
    (sbrk_calls T incrs p).map Prod.fst =
      (List.range incrs.length).map fun k => wrap T.ptrBits (cursor T p + (incrs.take k).sum)
  | [], _, _, _ => rfl
  | [i], p, hc, _ => by
      simp [sbrk_calls, sbrk_fst, List.range_succ, wrap_of_lt _ _ hc]
  | i :: j :: js, p, hc, h => by
      have h1 : T._end = 0 ∨ wrap T.ptrBits (cursor T p + i) ≠ 0 := by
        rcases h with h | h
        · exact Or.inl h
        · right
          have h2 := h 1 (by decide) (by simp)
          simpa using h2
      have hcur := cursor_after T i p h1
      have ih := sbrk_calls_fst T (j :: js) (sbrk T i p).2
        (by rw [hcur]; exact wrap_lt _ _)
        (by
          rcases h with h | h
          · exact Or.inl h
          · right
            rw [hcur]
            exact nonzero_tail T (cursor T p) i (j :: js) h)
      show (sbrk T i p).1 :: (sbrk_calls T (j :: js) (sbrk T i p).2).map Prod.fst =
        (List.range ((j :: js).length + 1)).map
          fun k => wrap T.ptrBits (cursor T p + ((i :: j :: js).take k).sum)
      rw [ih, List.range_succ_eq_map, List.map_cons, List.map_map, sbrk_fst]
      congr 1
      · simp [wrap_of_lt _ _ hc]
      · apply List.map_congr_left
        intro k _
        simp [hcur, wrap_add, add_assoc]

/-- The hypothesis of `sbrk_calls_fst` is needed: when the calls return the
running sums from the cursor, `&_end` is zero or no call but the last left
the variable at zero. -/
theorem sbrk_calls_fst_only_if (T : Target) : ∀ (incrs : List Int) (p : Proc),
    cursor T p < 2 ^ T.ptrBits →
    (sbrk_calls T incrs p).map Prod.fst =
      (List.range incrs.length).map
        (fun k => wrap T.ptrBits (cursor T p + (incrs.take k).sum)) →
    T._end = 0 ∨ ∀ k, 0 < k → k < incrs.length →
      wrap T.ptrBits (cursor T p + (incrs.take k).sum) ≠ 0
  | [], _, _, _ => Or.inr (fun k _ hk => absurd hk (Nat.not_lt_zero k))
  | [_], _, _, _ => Or.inr (fun k h0 hk => by
      have h1 : k < 1 := hk
      omega)
  | i :: j :: js, p, hc, hret => by
      by_cases hb : T._end = 0
      · exact Or.inl hb
      · have hh := sbrk_heap_end T i p
        have hlt : wrap T.ptrBits (cursor T p + i) < 2 ^ T.ptrBits := wrap_lt _ _
        have htail : (sbrk_calls T (j :: js) (sbrk T i p).2).map Prod.fst =
            (List.range (j :: js).length).map
              (fun k => wrap T.ptrBits ((wrap T.ptrBits (cursor T p + i) : Nat) +
                ((j :: js).take k).sum)) := by
          have h2 : (sbrk T i p).1 :: (sbrk_calls T (j :: js) (sbrk T i p).2).map Prod.fst =
              (List.range ((j :: js).length + 1)).map
                (fun k => wrap T.ptrBits (cursor T p + ((i :: j :: js).take k).sum)) := hret
          rw [List.range_succ_eq_map, List.map_cons, List.map_map] at h2
          rw [(List.cons.inj h2).2]
          apply List.map_congr_left
          intro k _
          simp [wrap_add, add_assoc]
        have hne : wrap T.ptrBits (cursor T p + i) ≠ 0 := by
          intro hz
          have h3 : (sbrk T j (sbrk T i p).2).1 =
              wrap T.ptrBits ((wrap T.ptrBits (cursor T p + i) : Nat) + 0) := by
            have h4 := htail
            rw [sbrk_calls, List.map_cons, List.length_cons, List.range_succ_eq_map,
              List.map_cons] at h4
            simpa using (List.cons.inj h4).1
          rw [sbrk_fst, add_zero, wrap_of_lt _ _ hlt, hz] at h3
          have h5 : cursor T (sbrk T i p).2 = T._end := cursor_of_eq T _ (by rw [hh]; exact hz)
          exact hb (h5.symm.trans h3)
        have hcur := cursor_after T i p (Or.inr hne)
        have ih := sbrk_calls_fst_only_if T (j :: js) (sbrk T i p).2
          (by rw [hcur]; exact hlt) (by rw [hcur]; exact htail)
        rcases ih with ih | ih
        · exact Or.inl ih
        · right
          intro k h0 hk
          rw [hcur] at ih
          cases k with
          | zero => exact absurd h0 (Nat.lt_irrefl 0)
          | succ m =>
            cases m with
            | zero => simpa using hne
            | succ m =>
              have h6 := ih (m + 1) (Nat.succ_pos m) (by
                simp only [List.length_cons] at hk ⊢
                omega)
              rw [wrap_add] at h6
              simpa [List.take, add_assoc] using h6

/-- Under the same hypothesis the variable ends at the cursor plus the sum of
all the increments. -/
theorem sbrk_run_heap_end (T : Target) : ∀ (i : Int) (is : List Int) (p : Proc),
    (T._end = 0 ∨ ∀ k, 0 < k → k < (i :: is).length →
      wrap T.ptrBits (cursor T p + ((i :: is).take k).sum) ≠ 0) →
    (sbrk_run T (i :: is) p).heap_end = wrap T.ptrBits (cursor T p + (i :: is).sum)
  | i, [], p, _ => by
      simp [sbrk_run, sbrk_heap_end]
  | i, j :: js, p, h => by
      have h1 : T._end = 0 ∨ wrap T.ptrBits (cursor T p + i) ≠ 0 := by
        rcases h with h | h
        · exact Or.inl h
        · right
          have h2 := h 1 (by decide) (by simp)
          simpa using h2
      have hcur := cursor_after T i p h1
      have ih := sbrk_run_heap_end T j js (sbrk T i p).2
        (by
          rcases h with h | h
          · exact Or.inl h
          · right
            rw [hcur]
            exact nonzero_tail T (cursor T p) i (j :: js) h)
      rw [sbrk_run, ih, hcur, wrap_add]
      simp only [List.sum_cons, add_assoc]

theorem sbrk_calls_length (T : Target) : ∀ (is : List Int) (p : Proc),
    (sbrk_calls T is p).length = is.length
  | [], _ => rfl
  | i :: is, p => by
      rw [sbrk_calls, List.length_cons, List.length_cons, sbrk_calls_length T is]

/-- A call that finds the variable non-zero does not execute the seeding
assignment, and neither does any later call, as long as no call but the last
leaves the variable at zero. -/
theorem sbrk_calls_seeds (T : Target) : ∀ (is : List Int) (p : Proc),
    (is ≠ [] → p.heap_end ≠ 0) →
    (∀ k, 0 < k → k < is.length → wrap T.ptrBits (p.heap_end + (is.take k).sum) ≠ 0) →
    ∀ r ∈ sbrk_calls T is p, r.2.seeds = p.seeds
  | [], _, _, _ => by
      intro r hr
      simp [sbrk_calls] at hr
  | j :: js, p, hne, h => by
      have hp : p.heap_end ≠ 0 := hne (List.cons_ne_nil j js)
      have hs : (sbrk T j p).2.seeds = p.seeds := by rw [sbrk_seeds, if_neg hp, Nat.add_zero]
      have hh : (sbrk T j p).2.heap_end = wrap T.ptrBits (p.heap_end + j) := by
        rw [sbrk_heap_end, cursor_of_ne T p hp]
      have ih := sbrk_calls_seeds T js (sbrk T j p).2
        (by
          intro hjs
          rw [hh]
          have h2 := h 1 (by decide) (by
            cases js with
            | nil => exact absurd rfl hjs
            | cons a as => simp)
          simpa using h2)
        (by
          rw [hh]
          exact nonzero_tail T p.heap_end j js h)
      intro r hr
      rw [sbrk_calls, List.mem_cons] at hr
      rcases hr with hr | hr
      · rw [hr, hs]
      · rw [ih r hr, hs]

/-- A call with increment zero leaves the cursor where it was. -/
theorem cursor_sbrk_zero (T : Target) (p : Proc) (hc : cursor T p < 2 ^ T.ptrBits) :
    cursor T (sbrk T 0 p).2 = cursor T p := by
  have hh : (sbrk T 0 p).2.heap_end = cursor T p := by
    rw [sbrk_heap_end, add_zero, wrap_of_lt _ _ hc]
  show (if (sbrk T 0 p).2.heap_end = 0 then T._end else (sbrk T 0 p).2.heap_end) = _
  rw [hh]
  split_ifs with hz
  · rw [hz]
    unfold cursor at hz
    split_ifs at hz with h0
    · exact hz
    · exact absurd hz h0
  · rfl

theorem sbrk_calls_zero (T : Target) : ∀ (n : Nat) (p : Proc), cursor T p < 2 ^ T.ptrBits →
    (sbrk_calls T (List.replicate n 0) p).map Prod.fst = List.replicate n (cursor T p)
  | 0, _, _ => rfl
  | n + 1, p, hc => by
      have ih := sbrk_calls_zero T n (sbrk T 0 p).2 (by rw [cursor_sbrk_zero T p hc]; exact hc)
      rw [List.replicate_succ, sbrk_calls, List.map_cons, ih, cursor_sbrk_zero T p hc, sbrk_fst,
        List.replicate_succ]

/-! ## The heap cursor (`sbrk`) -/

/-- C1, as amended: from a state with `heap_end = 0`, when the end-of-data
address `base` is zero or no call before the last leaves the cursor at zero,
the k-th `sbrk` call returns `base + i1 + ... + i(k-1)` (the first returns
`base`) and after the last call `heap_end` is `base + (i1 + ... + in)`,
addresses being taken modulo the pointer width. -/
theorem sbrk_returns_running_sums (T : Target) (i : Int) (is : List Int) (p : Proc)
    (hstart : p.heap_end = 0) (hbase : T._end < 2 ^ T.ptrBits)
    (hnz : T._end = 0 ∨ ∀ k, 0 < k → k < (i :: is).length →
      wrap T.ptrBits (T._end + ((i :: is).take k).sum) ≠ 0) :
    (sbrk_calls T (i :: is) p).map Prod.fst = spec_returns T (i :: is) ∧
    (sbrk_run T (i :: is) p).heap_end = wrap T.ptrBits (T._end + (i :: is).sum) := by
  have hc : cursor T p = T._end := cursor_of_eq T p hstart
  constructor
  · have h := sbrk_calls_fst T (i :: is) p (by rw [hc]; exact hbase) (by rw [hc]; exact hnz)
    rw [h, hc]
    rfl
  · have h := sbrk_run_heap_end T i is p (by rw [hc]; exact hnz)
    rw [h, hc]

/-- Instance of C1 as amended: `_end` at 16 on a 32-bit target, increments
8, -8, 4. -/
theorem sbrk_returns_running_sums_witness :
    (sbrk_calls ⟨32, 16⟩ [8, -8, 4] (Proc.start 0)).map Prod.fst = spec_returns ⟨32, 16⟩ [8, -8, 4] ∧
    (sbrk_run ⟨32, 16⟩ [8, -8, 4] (Proc.start 0)).heap_end =
      wrap 32 (((16 : Nat) : Int) + ([8, -8, 4] : List Int).sum) :=
  sbrk_returns_running_sums ⟨32, 16⟩ 8 [-8, 4] (Proc.start 0) rfl (by decide)
    (Or.inr (by
      intro k h1 h2
      have h3 : k < 3 := h2
      interval_cases k <;> decide))

/-- C1 as written fails: with `_end` at 16 and increments -16, 0 the first
call leaves `heap_end` at zero, the second call seeds it again and returns 16
where the running sum is 0, and the cursor ends at 16, not 0. -/
theorem sbrk_running_sums_counterexample :
    (sbrk_calls ⟨32, 16⟩ [-16, 0] (Proc.start 0)).map Prod.fst = [16, 16] ∧
    spec_returns ⟨32, 16⟩ [-16, 0] = [16, 0] ∧
    (sbrk_run ⟨32, 16⟩ [-16, 0] (Proc.start 0)).heap_end = 16 ∧
    wrap 32 (((16 : Nat) : Int) + ([-16, 0] : List Int).sum) = 0 ∧
    ¬ ((sbrk_calls ⟨32, 16⟩ [-16, 0] (Proc.start 0)).map Prod.fst = spec_returns ⟨32, 16⟩ [-16, 0] ∧
      (sbrk_run ⟨32, 16⟩ [-16, 0] (Proc.start 0)).heap_end =
        wrap 32 (((16 : Nat) : Int) + ([-16, 0] : List Int).sum)) := by
  decide

/-- The condition of the amended C1 cannot be dropped: from a state with
`heap_end = 0`, whenever the calls return the addresses the specification
lists, `base` is zero or no call before the last left the cursor at zero. -/
theorem sbrk_running_sums_only_if (T : Target) (incrs : List Int) (p : Proc)
    (hstart : p.heap_end = 0) (hbase : T._end < 2 ^ T.ptrBits)
    (hret : (sbrk_calls T incrs p).map Prod.fst = spec_returns T incrs) :
    T._end = 0 ∨ ∀ k, 0 < k → k < incrs.length →
      wrap T.ptrBits (T._end + (incrs.take k).sum) ≠ 0 := by
  have hc : cursor T p = T._end := cursor_of_eq T p hstart
  have h := sbrk_calls_fst_only_if T incrs p (by rw [hc]; exact hbase) (by rw [hc]; exact hret)
  rw [hc] at h
  exact h

/-- C2, as amended: from a state with `heap_end = 0` the first `sbrk` call
executes `heap_end = &_end`, and when no call before the last leaves the
cursor at zero no later call executes it again: after every call of the
sequence the assignment has been executed exactly once more than before the
sequence (the ghost counter `seeds` reads one more than at the start after
every call). -/
theorem sbrk_seeds_once (T : Target) (i : Int) (is : List Int) (p : Proc)
    (hstart : p.heap_end = 0)
    (hnz : ∀ k, 0 < k → k < (i :: is).length →
      wrap T.ptrBits (T._end + ((i :: is).take k).sum) ≠ 0) :
    (sbrk_calls T (i :: is) p).map (fun r => r.2.seeds) =
      List.replicate (i :: is).length (p.seeds + 1) := by
  have hs : (sbrk T i p).2.seeds = p.seeds + 1 := by rw [sbrk_seeds, if_pos hstart]
  have hh : (sbrk T i p).2.heap_end = wrap T.ptrBits (T._end + i) := by
    rw [sbrk_heap_end, cursor_of_eq T p hstart]
  have hrest := sbrk_calls_seeds T is (sbrk T i p).2
    (by
      intro his
      rw [hh]
      have h2 := hnz 1 (by decide) (by
        cases is with
        | nil => exact absurd rfl his
        | cons a as => simp)
      simpa using h2)
    (by
      rw [hh]
      exact nonzero_tail T T._end i is hnz)
  rw [List.eq_replicate_iff]
  constructor
  · rw [List.length_map, sbrk_calls_length]
  · intro n hn
    rw [List.mem_map] at hn
    obtain ⟨r, hr, rfl⟩ := hn
    rw [sbrk_calls, List.mem_cons] at hr
    rcases hr with hr | hr
    · rw [hr, hs]
    · rw [hrest r hr, hs]

/-- Instance of C2 as amended: `_end` at 16 on a 32-bit target, increments
8, -8, 4. -/
theorem sbrk_seeds_once_witness :
    (sbrk_calls ⟨32, 16⟩ [8, -8, 4] (Proc.start 0)).map (fun r => r.2.seeds) = [1, 1, 1] :=
  sbrk_seeds_once ⟨32, 16⟩ 8 [-8, 4] (Proc.start 0) rfl (by
    intro k h1 h2
    have h3 : k < 3 := h2
    interval_cases k <;> decide)

/-- C2 as written fails: with `_end` at 16 and increments -16, 0 the second
call finds `heap_end` at zero and executes `heap_end = &_end` a second
time. -/
theorem sbrk_seeds_counterexample :
    (sbrk_calls ⟨32, 16⟩ [-16, 0] (Proc.start 0)).map (fun r => r.2.heap_end) = [0, 16] ∧
    (sbrk_calls ⟨32, 16⟩ [-16, 0] (Proc.start 0)).map (fun r => r.2.seeds) = [1, 2] ∧
    (sbrk_calls ⟨32, 16⟩ [-16, 0] (Proc.start 0)).map (fun r => r.2.seeds) ≠
      List.replicate 2 ((Proc.start 0).seeds + 1) := by
  decide

/-- C3, as amended: in every state with `heap_end` non-zero, `sbrk(0)`
returns `heap_end` and leaves the state as it was; in a state with
`heap_end` zero it returns `&_end` and leaves `heap_end` at `&_end`. In
every state `heap_end` after the call equals the value returned, and any
number of consecutive `sbrk(0)` calls all return that same address. -/
theorem sbrk_zero (T : Target) (p : Proc)
    (hbase : T._end < 2 ^ T.ptrBits) (hp : p.heap_end < 2 ^ T.ptrBits) :
    (p.heap_end ≠ 0 → sbrk T 0 p = (p.heap_end, p)) ∧
    (p.heap_end = 0 →
      sbrk T 0 p = (T._end, { p with heap_end := T._end, seeds := p.seeds + 1 })) ∧
    (sbrk T 0 p).2.heap_end = (sbrk T 0 p).1 ∧
    ∀ n, (sbrk_calls T (List.replicate n 0) p).map Prod.fst = List.replicate n (sbrk T 0 p).1 := by
  have hc := cursor_lt T p hbase hp
  refine ⟨?_, ?_, ?_, ?_⟩
  · intro hne
    unfold sbrk
    simp only [if_neg hne, add_zero, wrap_of_lt _ _ hp]
  · intro hz
    unfold sbrk
    simp only [if_pos hz, add_zero, wrap_of_lt _ _ hbase]
  · rw [sbrk_heap_end, sbrk_fst, add_zero, wrap_of_lt _ _ hc]
  · intro n
    rw [sbrk_fst]
    exact sbrk_calls_zero T n p hc

/-- Instances of C3 as amended, on a 32-bit target with `_end` at 16: a
cursor at 4096 is returned and the state kept, three calls in a row return
4096; from a cursor at zero three calls in a row return 16. -/
theorem sbrk_zero_witness :
    sbrk ⟨32, 16⟩ 0 ⟨7, 4096, [], 1⟩ = (4096, ⟨7, 4096, [], 1⟩) ∧
    (sbrk_calls ⟨32, 16⟩ [0, 0, 0] ⟨7, 4096, [], 1⟩).map Prod.fst = [4096, 4096, 4096] ∧
    sbrk ⟨32, 16⟩ 0 ⟨7, 0, [], 0⟩ = (16, ⟨7, 16, [], 1⟩) ∧
    (sbrk_calls ⟨32, 16⟩ [0, 0, 0] ⟨7, 0, [], 0⟩).map Prod.fst = [16, 16, 16] :=
  ⟨(sbrk_zero ⟨32, 16⟩ ⟨7, 4096, [], 1⟩ (by decide) (by decide)).1 (by decide),
   (sbrk_zero ⟨32, 16⟩ ⟨7, 4096, [], 1⟩ (by decide) (by decide)).2.2.2 3,
   (sbrk_zero ⟨32, 16⟩ ⟨7, 0, [], 0⟩ (by decide) (by decide)).2.1 rfl,
   (sbrk_zero ⟨32, 16⟩ ⟨7, 0, [], 0⟩ (by decide) (by decide)).2.2.2 3⟩

/-- C3 as written fails: with `_end` at 16 and `heap_end` at zero, `sbrk(0)`
returns 16, which is not the value of `heap_end` on entry, and moves
`heap_end` from 0 to 16. -/
theorem sbrk_zero_counterexample :
    (Proc.start 0).heap_end = 0 ∧
    (sbrk ⟨32, 16⟩ 0 (Proc.start 0)).1 = 16 ∧
    (sbrk ⟨32, 16⟩ 0 (Proc.start 0)).2.heap_end = 16 ∧
    ¬ ((sbrk ⟨32, 16⟩ 0 (Proc.start 0)).1 = (Proc.start 0).heap_end ∧
      (sbrk ⟨32, 16⟩ 0 (Proc.start 0)).2.heap_end = (Proc.start 0).heap_end) := by
  decide

/-- C10: one `sbrk` step is decided by the cursor on entry. When it is
non-zero the call returns it and leaves it advanced by `incr`, whatever
`_end` is; when it is zero the call returns `_end` and leaves the cursor at
`_end + incr`. Either way the result is that address, `errno` is left as it
was and no request goes to the kernel. -/
theorem sbrk_step (T : Target) (incr : Int) (p : Proc) :
    (p.heap_end ≠ 0 →
      sbrk T incr p = (p.heap_end, { p with heap_end := wrap T.ptrBits (p.heap_end + incr) }) ∧
      ∀ b : Nat, sbrk ⟨T.ptrBits, b⟩ incr p = sbrk T incr p) ∧
    (p.heap_end = 0 →
      sbrk T incr p =
        (T._end, { p with heap_end := wrap T.ptrBits (T._end + incr), seeds := p.seeds + 1 })) ∧
    (sbrk T incr p).2.errno = p.errno ∧
    (sbrk T incr p).2.trace = p.trace := by
  unfold sbrk
  by_cases h : p.heap_end = 0 <;> simp [h]

/-- Instances of C10: a cursor at 4096 advanced by -96, and a cursor at zero
seeded from `_end` at 16 and advanced by 8. -/
theorem sbrk_step_witness :
    sbrk ⟨32, 16⟩ (-96) ⟨7, 4096, [], 1⟩ = (4096, ⟨7, 4000, [], 1⟩) ∧
    sbrk ⟨32, 16⟩ 8 ⟨7, 0, [], 0⟩ = (16, ⟨7, 24, [], 1⟩) :=
  ⟨((sbrk_step ⟨32, 16⟩ (-96) ⟨7, 4096, [], 1⟩).1 (by decide)).1,
   (sbrk_step ⟨32, 16⟩ 8 ⟨7, 0, [], 0⟩).2.1 rfl⟩

/-! ## The two kernel calls -/

/-- C4: for every kernel that answers requests with a word and every
`(file, ptr, len)`, `write` hands the kernel exactly one request, operation
code 4 with the arguments `file`, `ptr`, `len` in that order, and returns the
very word the kernel answered, negative or not; nothing else of the process
state is touched. Whatever the kernel does, that one request is what `write`
issues. -/
theorem write_passes_through (k : Request → Int) (K : Kernel) (file : Int) (ptr : Nat)
    (len : Int) (p : Proc) :
    write (fun r => some (k r)) file ptr len p =
      Ctl.returned (k ⟨4, [file, (ptr : Int), len]⟩)
        { p with trace := p.trace ++ [⟨4, [file, (ptr : Int), len]⟩] } ∧
    (write K file ptr len p).proc = { p with trace := p.trace ++ [⟨4, [file, (ptr : Int), len]⟩] } := by
  constructor
  · rfl
  · unfold write int80
    cases K ⟨4, [file, (ptr : Int), len]⟩ <;> rfl

/-- C9: for every exit code, `_exit` hands the kernel exactly one request,
operation code 1 with the exit code as its argument, and when the kernel does
not resume the caller of that request control never comes back from
`_exit`. -/
theorem exit_never_returns (K : Kernel) (code : Int) (p : Proc)
    (hterm : K ⟨1, [code]⟩ = none) :
    _exit K code p = Ctl.halted { p with trace := p.trace ++ [⟨1, [code]⟩] } ∧
    ∀ K1 : Kernel, (_exit K1 code p).proc = { p with trace := p.trace ++ [⟨1, [code]⟩] } := by
  constructor
  · unfold _exit int80
    rw [hterm]
  · intro K1
    unfold _exit int80
    cases K1 ⟨1, [code]⟩ <;> rfl

/-- Instance of C9: a kernel that ends the process on operation 1 and answers
anything else with 0, exit code 3. -/
theorem exit_never_returns_witness :
    _exit (fun r => if r.op = 1 then none else some 0) 3 (Proc.start 0) =
      Ctl.halted ⟨0, 0, [⟨1, [3]⟩], 0⟩ :=
  (exit_never_returns (fun r => if r.op = 1 then none else some 0) 3 (Proc.start 0) rfl).1

/-! ## The fixed-response stubs -/

/-- C5: whatever the arguments and whatever `errno` held, each failing stub
returns -1 and leaves `errno` at its error kind: `execve` at `ENOMEM`, `fork`
at `EAGAIN`, `kill` at `EINVAL`, `link` at `EMLINK`, `unlink` at `ENOENT`,
`wait` at `ECHILD`. -/
theorem failing_stubs_set_errno (H : Headers) (p : Proc) (name argv env old new status : Nat)
    (pid sig : Int) :
    ((execve H name argv env p).1 = -1 ∧ (execve H name argv env p).2.errno = H.ENOMEM) ∧
    ((fork H p).1 = -1 ∧ (fork H p).2.errno = H.EAGAIN) ∧
    ((kill H pid sig p).1 = -1 ∧ (kill H pid sig p).2.errno = H.EINVAL) ∧
    ((link H old new p).1 = -1 ∧ (link H old new p).2.errno = H.EMLINK) ∧
    ((unlink H name p).1 = -1 ∧ (unlink H name p).2.errno = H.ENOENT) ∧
    ((wait H status p).1 = -1 ∧ (wait H status p).2.errno = H.ECHILD) :=
  ⟨⟨rfl, rfl⟩, ⟨rfl, rfl⟩, ⟨rfl, rfl⟩, ⟨rfl, rfl⟩, ⟨rfl, rfl⟩, ⟨rfl, rfl⟩⟩

/-- C6: for every handle or path and every prior content of the buffer,
`fstat` and `stat` return 0 and leave the buffer with `st_mode` equal to
`S_IFCHR`. -/
theorem fstat_stat_char_device (H : Headers) (file : Int) (path : Nat) (st : struct_stat)
    (p : Proc) :
    ((fstat H file st p).1 = 0 ∧ (fstat H file st p).2.1.st_mode = H.S_IFCHR) ∧
    ((stat H path st p).1 = 0 ∧ (stat H path st p).2.1.st_mode = H.S_IFCHR) :=
  ⟨⟨rfl, rfl⟩, ⟨rfl, rfl⟩⟩

/-- C7: the dummy-success stubs do not look at their arguments: `getpid`
returns 1, `isatty` returns 1, `lseek` returns 0 and `read` returns 0 whatever
`len` is, and none of them changes the process state. -/
theorem dummy_stubs_constant (p : Proc) (file off dir len : Int) (ptr : Nat) :
    getpid p = (1, p) ∧
    isatty file p = (1, p) ∧
    lseek file off dir p = (0, p) ∧
    read file ptr len p = (0, p) :=
  ⟨rfl, rfl, rfl, rfl⟩

/-- C8: whatever the arguments and whatever `errno` held, `close`, `open` and
`times` return -1 and leave `errno` as it was. -/
theorem silent_stubs_keep_errno (p : Proc) (file flags : Int) (path buf : Nat) (rest : List Int) :
    ((close file p).1 = -1 ∧ (close file p).2.errno = p.errno) ∧
    ((«open» path flags rest p).1 = -1 ∧ («open» path flags rest p).2.errno = p.errno) ∧
    ((times buf p).1 = -1 ∧ (times buf p).2.errno = p.errno) :=
  ⟨⟨rfl, rfl⟩, ⟨rfl, rfl⟩, ⟨rfl, rfl⟩⟩

end Redox
